import Mathlib

/-!
Verification development for the emailscrape job-management service.

The HTTP layer (`api.py`) is embedded directly: uploads, file deletion,
job endpoints, statistics, and the order in which each handler applies a
mutation and then broadcasts an event.  The job-manager and worker module
(`jobs.py`) is not part of the visible sources; where a claim depends on
its behaviour, the corresponding definition is modelled from the
specification and marked as such in its doc comment.
-/

set_option autoImplicit false

namespace EmailScrape

/-- The error taxonomy surfaced by the HTTP layer: HTTP 404 is `NotFound`,
HTTP 400 is `InvalidInput` (bad extension, bad action, out-of-range sheet
index, resume of a terminal job). -/
inductive ApiError where
  | notFound
  | invalidInput
  deriving DecidableEq, Repr

/-- Outbound events broadcast by `api.py` handlers over the WebSocket
connection manager. -/
inductive Ev where
  | file_uploaded (name : String)
  | file_deleted (name : String)
  | output_deleted (name : String)
  | job_created (id : Nat)
  | job_control (id : Nat)
  | job_status_changed (id : Nat)
  | job_deleted (id : Nat)
  deriving DecidableEq, Repr

/-- Uploaded file content (`await file.read()` bytes). -/
abbrev Bytes := List Nat

/-- The uploads directory, addressed by filename. -/
abbrev Store := List (String × Bytes)

/-- Python's `str.endswith` over the character sequence of the strings:
`s` ends with `suf` iff the reverse of `s` starts with the reverse of
`suf`. -/
def strEndsWith (s suf : String) : Bool :=
  s.data.reverse.take suf.data.length == suf.data.reverse

/-- `upload_files` accepts a file iff its name ends with `.xlsx` or `.xls`
(`file.filename.endswith(('.xlsx', '.xls'))` in `api.py`). -/
def validExt (name : String) : Bool :=
  strEndsWith name ".xlsx" || strEndsWith name ".xls"

/-- Look a file up by name in a store. -/
def storeLookup (st : Store) (name : String) : Option Bytes :=
  (st.find? (fun p => p.1 = name)).map (fun p => p.2)

/-- `open(filepath, 'wb')` followed by `f.write(content)`: writes the
content under `name`, overwriting an existing entry of that name. -/
def storeWrite (st : Store) (name : String) (content : Bytes) : Store :=
  if st.any (fun p => p.1 = name) then
    st.map (fun p => if p.1 = name then (name, content) else p)
  else
    st ++ [(name, content)]

/-- The `upload_files` handler (`api.py` lines 66-98): iterates over the
posted files in order; for each, rejects a name without an accepted
spreadsheet extension with HTTP 400 (aborting the whole request there),
otherwise saves the file and broadcasts a `file_uploaded` event before
moving to the next file.  Returns the final store, the events broadcast,
and the request outcome. -/
def upload_files (st : Store) : List (String × Bytes) → Store × List Ev × Except ApiError Unit
  | [] => (st, [], .ok ())
  | (n, c) :: rest =>
    if validExt n then
      match upload_files (storeWrite st n c) rest with
      | (st', evs, r) => (st', .file_uploaded n :: evs, r)
    else
      (st, [], .error .invalidInput)

/-! ## Statistics (`get_stats`, `api.py` lines 269-287) -/

/-- Job lifecycle states. -/
inductive JobStatus where
  | pending
  | processing
  | paused
  | completed
  | failed
  deriving DecidableEq, Repr

/-- The last-requested control signal of a job. -/
inductive JobControl where
  | run
  | pause
  | stop
  deriving DecidableEq, Repr

/-- A terminal status admits no further transitions short of deletion. -/
def JobStatus.isTerminal : JobStatus → Bool
  | .completed => true
  | .failed => true
  | _ => false

/-- Progress counters of one job. -/
structure Progress where
  sheetsProcessed : Nat
  rowsProcessed : Nat
  emailsFound : Nat
  deriving DecidableEq, Repr

/-- One persisted Job Record. -/
structure Job where
  id : Nat
  sourceFilename : String
  selectedSheets : List Nat
  status : JobStatus
  control : JobControl
  progress : Progress
  error : Option String
  deriving DecidableEq, Repr

/-- The counters returned by the `/api/stats` endpoint. -/
structure Stats where
  active_jobs : Nat
  completed_jobs : Nat
  failed_jobs : Nat
  total_jobs : Nat
  deriving DecidableEq, Repr

/-- The job counters of `get_stats` (`api.py` lines 269-287): `active_jobs`
counts jobs whose status is `processing` or `pending`, `completed_jobs`
and `failed_jobs` count their respective statuses, `total_jobs` counts all
jobs. -/
def get_stats (jobs : List Job) : Stats where
  active_jobs :=
    (jobs.filter (fun j => j.status = .processing || j.status = .pending)).length
  completed_jobs := (jobs.filter (fun j => j.status = .completed)).length
  failed_jobs := (jobs.filter (fun j => j.status = .failed)).length
  total_jobs := jobs.length

/-- The number of paused jobs in a list. -/
def pausedCount (jobs : List Job) : Nat :=
  (jobs.filter (fun j => j.status = .paused)).length

/-- The number of pending jobs in a list. -/
def pendingCount (jobs : List Job) : Nat :=
  (jobs.filter (fun j => j.status = .pending)).length

/-- The number of processing jobs in a list. -/
def processingCount (jobs : List Job) : Nat :=
  (jobs.filter (fun j => j.status = .processing)).length

/-! ## Job manager and worker

`api.py` imports `JobManager`, `JobStatus` and `JobControl` from `jobs.py`,
which is not among the visible sources; the definitions below are modelled
from the specification (sections 3, 4.2, 4.3) and supervise the same job
records the endpoints expose. -/

/-- An uploaded spreadsheet as the core sees it: an ordered sequence of
sheets, each an ordered sequence of rows. -/
abbrev SheetData := List (List String)

/-- The whole manager state: the uploaded files with their parsed sheet
contents, the job records in creation order, and the next fresh job id. -/
structure SysState where
  files : List (String × SheetData)
  jobs : List Job
  nextId : Nat
  deriving DecidableEq, Repr

/-- Look up the parsed sheets of an uploaded file by name. -/
def lookupFile (files : List (String × SheetData)) (name : String) : Option SheetData :=
  (files.find? (fun p => p.1 = name)).map (fun p => p.2)

/-- `get_job`: find the record with the given id. -/
def findJob (s : SysState) (id : Nat) : Option Job :=
  s.jobs.find? (fun j => j.id = id)

/-- Replace every record carrying `id` by its image under `f`. -/
def updateJob (s : SysState) (id : Nat) (f : Job → Job) : SysState :=
  { s with jobs := s.jobs.map (fun j => if j.id = id then f j else j) }

/-- Total number of row units of work a job has over its selected sheets. -/
def totalUnits (sheets : SheetData) (sel : List Nat) : Nat :=
  (sel.map (fun i => (sheets.getD i []).length)).sum

/-- Modelled from the spec: `JobManager.create_job` of `jobs.py` is not in
the visible sources.  Per section 4.2, it validates that `filename` exists
in the File Store (`NotFound` otherwise) and that `selected_sheets` is
non-empty with each index in range (`InvalidInput` otherwise), then
creates a record in `pending` with a fresh id and returns the id; on any
failure no record is created. -/
def create_job (s : SysState) (filename : String) (sel : List Nat) :
    Except ApiError (SysState × Nat) :=
  match lookupFile s.files filename with
  | none => .error .notFound
  | some sheets =>
    if sel.isEmpty then .error .invalidInput
    else if sel.all (fun i => i < sheets.length) then
      .ok ({ s with
              jobs := s.jobs ++ [{ id := s.nextId, sourceFilename := filename,
                                   selectedSheets := sel, status := .pending,
                                   control := .run,
                                   progress := ⟨0, 0, 0⟩, error := none }],
              nextId := s.nextId + 1 }, s.nextId)
    else .error .invalidInput

/-- Modelled from the spec: `JobManager.set_job_control` of `jobs.py` is
not in the visible sources.  Per section 4.2 it fails with `NotFound` when
the id is unknown and with `InvalidInput` when the signal is `run` on a
job that has already reached a terminal state; per the stickiness
invariant of section 3 (`control = stop` is sticky: the job cannot resume
without being recreated) a `stop` already recorded cannot be overwritten
by another signal.  Otherwise it records the signal on the `control`
field only. -/
def set_control (s : SysState) (id : Nat) (sig : JobControl) :
    Except ApiError SysState :=
  match findJob s id with
  | none => .error .notFound
  | some j =>
    if sig = .run && j.status.isTerminal then .error .invalidInput
    else if j.control = .stop && sig ≠ .stop then .error .invalidInput
    else .ok (updateJob s id (fun j' => { j' with control := sig }))

/-- Mark a job failed with the given diagnostic. -/
def failJob (j : Job) (msg : String) : Job :=
  { j with status := .failed, error := some msg }

/-- Modelled from the spec: the Extraction Worker of `jobs.py` is not in
the visible sources.  One unit of work at a control boundary, following
the state machine of section 4.3: a `stop` signal observed from `pending`,
`processing` or `paused` lands in `failed` with error "stopped by user";
`pending` is scheduled into `processing`; `processing` with `pause`
persists progress and parks in `paused`; `paused` with `run` resumes to
`processing`; `processing` with `run` advances one row of progress, or
completes once every selected row is consumed, or fails when the source
file is gone (section 8: a dangling reference surfaces as `failed`).
Terminal records are never touched. -/
def worker_step (s : SysState) (id : Nat) : SysState :=
  match findJob s id with
  | none => s
  | some j =>
    if j.status.isTerminal then s
    else if j.control = .stop then
      updateJob s id (fun j' => failJob j' "stopped by user")
    else
      match j.status, j.control with
      | .pending, .run => updateJob s id (fun j' => { j' with status := .processing })
      | .processing, .pause => updateJob s id (fun j' => { j' with status := .paused })
      | .paused, .run => updateJob s id (fun j' => { j' with status := .processing })
      | .processing, .run =>
        match lookupFile s.files j.sourceFilename with
        | none => updateJob s id (fun j' => failJob j' "file not found")
        | some sheets =>
          if j.progress.rowsProcessed < totalUnits sheets j.selectedSheets then
            updateJob s id (fun j' =>
              { j' with progress :=
                  { j'.progress with rowsProcessed := j'.progress.rowsProcessed + 1 } })
          else
            updateJob s id (fun j' => { j' with status := .completed })
      | _, _ => s

/-- Force `control = stop` on a record, bypassing no check: the first half
of the stop-then-delete ordering of section 4.2. -/
def forceStop (s : SysState) (id : Nat) : SysState :=
  updateJob s id (fun j => { j with control := .stop })

/-- The bounded wait of `delete_job`: the worker observes the forced
`stop` within one unit-of-work boundary, so one worker step suffices for
the record to reach a terminal state. -/
def stopAndWait (s : SysState) (id : Nat) : SysState :=
  worker_step (forceStop s id) id

/-- Modelled from the spec: `JobManager.delete_job` of `jobs.py` is not
in the visible sources.  Per section 4.2, an unknown id fails with
`NotFound`; a `processing` or `paused` job first has `control = stop`
forced and the active worker execution is awaited (bounded wait, one
unit-of-work boundary) before the record is removed; any other job is
removed directly. -/
def delete_job (s : SysState) (id : Nat) : Except ApiError SysState :=
  match findJob s id with
  | none => .error .notFound
  | some j =>
    if j.status = .processing || j.status = .paused then
      match stopAndWait s id with
      | s' => .ok { s' with jobs := s'.jobs.filter (fun j' => j'.id ≠ id) }
    else
      .ok { s with jobs := s.jobs.filter (fun j' => j'.id ≠ id) }

/-! ## Operation language over the manager state

Every externally triggerable step: the job endpoints of `api.py`, one
worker unit of work, and the file-store mutations.  A failing endpoint
leaves the state unchanged (validation errors never mutate state,
section 7). -/

/-- One operation against the system. -/
inductive Op where
  | create (filename : String) (sel : List Nat)
  | control (id : Nat) (sig : JobControl)
  | worker (id : Nat)
  | deleteJob (id : Nat)
  | fileSave (name : String) (sheets : SheetData)
  | fileDelete (name : String)
  deriving DecidableEq, Repr

/-- Apply one operation; a validation error leaves the state unchanged. -/
def applyOp (s : SysState) : Op → SysState
  | .create filename sel =>
    match create_job s filename sel with
    | .ok (s', _) => s'
    | .error _ => s
  | .control id sig =>
    match set_control s id sig with
    | .ok s' => s'
    | .error _ => s
  | .worker id => worker_step s id
  | .deleteJob id =>
    match delete_job s id with
    | .ok s' => s'
    | .error _ => s
  | .fileSave name sheets =>
    { s with files := (s.files.filter (fun p => p.1 ≠ name)) ++ [(name, sheets)] }
  | .fileDelete name =>
    { s with files := s.files.filter (fun p => p.1 ≠ name) }

/-- Apply a sequence of operations in order. -/
def applyAll (s : SysState) (ops : List Op) : SysState :=
  ops.foldl applyOp s

/-- Well-formedness: every record's id is below the fresh-id counter, so
`create_job` never reuses the id of a live or deleted job. -/
def WF (s : SysState) : Prop :=
  ∀ j ∈ s.jobs, j.id < s.nextId

/-! ## Worker output and the resume contract

Modelled from the spec: the Extraction Worker's output production
(`jobs.py`) is not in the visible sources.  Section 4.3 describes a run as
the selected sheets processed in order, each row put through the pluggable
extraction unit, with pause landing on a checkpoint `(sheet position in
the selected list, row offset in that sheet)` and resume re-reading from
that checkpoint, never re-emitting already-written rows. -/

/-- Rows put through the pluggable per-row extraction unit, in order. -/
def extractRows (extract : String → List String) (rows : List String) : List String :=
  rows.flatMap extract

/-- The sheet at index `i` of a parsed file (empty when out of range). -/
def sheetAt (sheets : SheetData) (i : Nat) : List String :=
  sheets.getD i []

/-- The output of an uninterrupted run over the selected sheets. -/
def runJob (extract : String → List String) (sheets : SheetData) (sel : List Nat) :
    List String :=
  sel.flatMap (fun i => extractRows extract (sheetAt sheets i))

/-- The output already written when the worker pauses at checkpoint
`(si, ro)`: the selected sheets before position `si` in full, then the
first `ro` rows of the sheet at position `si`. -/
def outputBeforePause (extract : String → List String) (sheets : SheetData)
    (sel : List Nat) (si ro : Nat) : List String :=
  runJob extract sheets (sel.take si) ++
    extractRows extract ((sheetAt sheets (sel.getD si 0)).take ro)

/-- The output a resumed execution writes from checkpoint `(si, ro)`: the
remaining rows of the sheet at position `si`, then the selected sheets
after it. -/
def resumeOutput (extract : String → List String) (sheets : SheetData)
    (sel : List Nat) (si ro : Nat) : List String :=
  extractRows extract ((sheetAt sheets (sel.getD si 0)).drop ro) ++
    runJob extract sheets (sel.drop (si + 1))

/-! ## Mutation/event ordering traces

Each mutating handler of `api.py` first applies its mutation (a
`job_manager` call or a file write) and only then broadcasts the
corresponding event; the traces below record the action order straight
from the handler bodies. -/

/-- A durable mutation applied by a handler. -/
inductive Mut where
  | fileSaved (name : String)
  | fileRemoved (name : String)
  | outputRemoved (name : String)
  | jobCreated (id : Nat)
  | jobControlSet (id : Nat)
  | jobStatusSet (id : Nat)
  | jobRemoved (id : Nat)
  deriving DecidableEq, Repr

/-- One step of a handler body: apply a mutation or broadcast an event. -/
inductive Action where
  | mutate (m : Mut)
  | emit (e : Ev)
  deriving DecidableEq, Repr

/-- The mutation an event reports. -/
def evMut : Ev → Mut
  | .file_uploaded n => .fileSaved n
  | .file_deleted n => .fileRemoved n
  | .output_deleted n => .outputRemoved n
  | .job_created id => .jobCreated id
  | .job_control id => .jobControlSet id
  | .job_status_changed id => .jobStatusSet id
  | .job_deleted id => .jobRemoved id

/-- Action order of `upload_files` (`api.py` lines 66-98): per file, the
extension check, then the write, then the broadcast; a bad extension
aborts the request before any further action. -/
def uploadFilesTrace : List String → List Action
  | [] => []
  | n :: rest =>
    if validExt n then
      .mutate (.fileSaved n) :: .emit (.file_uploaded n) :: uploadFilesTrace rest
    else []

/-- Action order of `delete_uploaded_file` (`api.py` lines 120-133): the
delete call, then (only on success) the broadcast. -/
def deleteUploadedFileTrace (present : Bool) (name : String) : List Action :=
  if present then [.mutate (.fileRemoved name), .emit (.file_deleted name)] else []

/-- Action order of `delete_output_file` (`api.py` lines 172-185). -/
def deleteOutputFileTrace (present : Bool) (name : String) : List Action :=
  if present then [.mutate (.outputRemoved name), .emit (.output_deleted name)] else []

/-- Action order of `create_job` (`api.py` lines 189-209): the manager
call creating the record, then the broadcast; a missing file aborts
before either. -/
def createJobTrace (filePresent : Bool) (id : Nat) : List Action :=
  if filePresent then [.mutate (.jobCreated id), .emit (.job_created id)] else []

/-- Action order of `control_job` (`api.py` lines 227-250): the
`set_job_control` call, then the broadcast; an invalid action or unknown
id aborts before either. -/
def controlJobTrace (valid : Bool) (id : Nat) : List Action :=
  if valid then [.mutate (.jobControlSet id), .emit (.job_control id)] else []

/-- Action order of `delete_job` (`api.py` lines 252-265): the manager
delete, then (only on success) the broadcast. -/
def deleteJobTrace (present : Bool) (id : Nat) : List Action :=
  if present then [.mutate (.jobRemoved id), .emit (.job_deleted id)] else []

/-- Modelled from the spec: the worker's status transitions and the
`job_status_changed` event they raise live in `jobs.py`, which is not in
the visible sources.  Per sections 4.2 and 5, a status change is first
durably applied to the Job Record (single-writer discipline) and the
event is emitted after that mutation; when no status change occurs at a
unit-of-work boundary, nothing is persisted or emitted. -/
def workerStatusTrace (changed : Bool) (id : Nat) : List Action :=
  if changed then [.mutate (.jobStatusSet id), .emit (.job_status_changed id)] else []

/-- `eventsAfterMutations done tr` holds when every event in `tr` reports
a mutation already applied: either earlier in `tr` or in `done`. -/
def eventsAfterMutations (done : List Mut) : List Action → Bool
  | [] => true
  | .mutate m :: rest => eventsAfterMutations (m :: done) rest
  | .emit e :: rest => decide (evMut e ∈ done) && eventsAfterMutations done rest

/-! ## Concrete records and states used by the witnesses -/

/-- The record `create_job` appends on success. -/
def newJob (s : SysState) (filename : String) (sel : List Nat) : Job where
  id := s.nextId
  sourceFilename := filename
  selectedSheets := sel
  status := .pending
  control := .run
  progress := ⟨0, 0, 0⟩
  error := none

/-- A concrete paused job record, used to exercise `get_stats`. -/
def pausedJob : Job where
  id := 0
  sourceFilename := "f.xlsx"
  selectedSheets := [0]
  status := .paused
  control := .pause
  progress := ⟨0, 0, 0⟩
  error := none

/-- A concrete one-file system state used by the witnesses. -/
def demoState : SysState where
  files := [("f.xlsx", [["r1", "r2"], ["r3"]])]
  jobs := []
  nextId := 0

/-- A concrete completed job record. -/
def doneJob : Job where
  id := 0
  sourceFilename := "f.xlsx"
  selectedSheets := [0]
  status := .completed
  control := .run
  progress := ⟨1, 1, 0⟩
  error := none

/-- A concrete processing job record over the demo file. -/
def procJob : Job where
  id := 0
  sourceFilename := "f.xlsx"
  selectedSheets := [0]
  status := .processing
  control := .run
  progress := ⟨0, 0, 0⟩
  error := none

/-- A concrete state holding `procJob` mid-execution. -/
def procState : SysState where
  files := [("f.xlsx", [["r1"]])]
  jobs := [procJob]
  nextId := 1

/-- A concrete pending job whose control has been set to `stop`. -/
def stoppedJob : Job where
  id := 0
  sourceFilename := "f.xlsx"
  selectedSheets := [0]
  status := .pending
  control := .stop
  progress := ⟨0, 0, 0⟩
  error := none

/-- A concrete state holding `stoppedJob`. -/
def stoppedState : SysState where
  files := []
  jobs := [stoppedJob]
  nextId := 1

/-- The stop-stickiness invariant for one job id: the state is
well-formed, the id is below the fresh-id counter (so it can never be
reissued), and the record of that id, when present, carries
`control = stop`. -/
def StickyStop (id : Nat) (s : SysState) : Prop :=
  WF s ∧ id < s.nextId ∧ ∀ j, findJob s id = some j → j.control = .stop

/-! ## Helper lemmas -/

theorem storeLookup_overwrite (st : Store) (n : String) (c : Bytes) :
    storeLookup (st.map (fun p => if p.1 = n then (n, c) else p)) n =
      if st.any (fun p => p.1 = n) then some c else none := by
  induction st with
  | nil => simp [storeLookup]
  | cons p st ih =>
    by_cases hp : p.1 = n
    · simp [storeLookup, List.find?, hp]
    · have hd : decide (p.1 = n) = false := decide_eq_false hp
      simp only [List.map_cons, List.any_cons, List.find?, hd, Bool.false_or, if_neg hp,
        storeLookup] at ih ⊢
      exact ih

theorem storeLookup_storeWrite_self (st : Store) (n : String) (c : Bytes) :
    storeLookup (storeWrite st n c) n = some c := by
  unfold storeWrite
  split
  case isTrue h => rw [storeLookup_overwrite, if_pos h]
  case isFalse h =>
    unfold storeLookup
    rw [List.find?_append]
    have hnone : st.find? (fun p => p.1 = n) = none := by
      rw [List.find?_eq_none]
      intro x hx hpx
      exact h (List.any_eq_true.mpr ⟨x, hx, hpx⟩)
    simp [hnone, List.find?]

/-! ## Claim theorems -/

/-- C7: a `save` through the upload handler with a name lacking an
accepted spreadsheet extension fails with `InvalidInput` and stores
nothing for that name; with an accepted extension the content is written,
overwriting any existing entry of that name, and the `file_uploaded`
event is broadcast. -/
theorem upload_save_checks_extension_and_overwrites (st : Store) (n : String) (c : Bytes) :
    (validExt n = false →
      upload_files st [(n, c)] = (st, [], .error .invalidInput)) ∧
    (validExt n = true →
      upload_files st [(n, c)] =
        (storeWrite st n c, [.file_uploaded n], .ok ()) ∧
      storeLookup (storeWrite st n c) n = some c) := by
  constructor
  · intro h
    simp [upload_files, h]
  · intro h
    exact ⟨by simp [upload_files, h], storeLookup_storeWrite_self st n c⟩

/-- Witness for C7 at concrete inputs: `a.txt` is rejected with the store
untouched, `b.xlsx` is written and retrievable. -/
theorem upload_save_checks_extension_and_overwrites_witness :
    upload_files [] [("a.txt", [1])] = ([], [], .error .invalidInput) ∧
    storeLookup (storeWrite [] "b.xlsx" [2]) "b.xlsx" = some [2] :=
  ⟨(upload_save_checks_extension_and_overwrites [] "a.txt" [1]).1 (by decide),
   ((upload_save_checks_extension_and_overwrites [] "b.xlsx" [2]).2 (by decide)).2⟩

/-- C9: when every file before position `k` of a batch has an accepted
extension and the file at position `k` does not, `upload_files` fails
with `InvalidInput` having saved exactly the files before `k`, with their
`file_uploaded` events already broadcast: the batch applies a strict
initial segment of the list, it is not atomic. -/
theorem upload_batch_applies_initial_segment (st : Store)
    (good rest : List (String × Bytes)) (bad : String × Bytes)
    (hgood : ∀ f ∈ good, validExt f.1 = true)
    (hbad : validExt bad.1 = false) :
    upload_files st (good ++ bad :: rest) =
      (good.foldl (fun acc f => storeWrite acc f.1 f.2) st,
       good.map (fun f => Ev.file_uploaded f.1),
       .error .invalidInput) := by
  induction good generalizing st with
  | nil => simp [upload_files, hbad]
  | cons f good ih =>
    obtain ⟨n, c⟩ := f
    have hf : validExt n = true := hgood (n, c) (by simp)
    have hrest : ∀ g ∈ good, validExt g.1 = true := fun g hg => hgood g (by simp [hg])
    simp only [List.cons_append, upload_files, hf, if_pos hf]
    rw [show (good.append (bad :: rest)) = good ++ bad :: rest from rfl,
        ih (storeWrite st n c) hrest]
    simp

/-- Witness for C9: a two-good-one-bad batch saves the two good files,
broadcasts their events, and fails with `InvalidInput`. -/
theorem upload_batch_applies_initial_segment_witness :
    upload_files [] [("a.xlsx", [1]), ("b.xls", [2]), ("c.txt", [3]), ("d.xlsx", [4])] =
      ([("a.xlsx", [1]), ("b.xls", [2])],
       [Ev.file_uploaded "a.xlsx", Ev.file_uploaded "b.xls"],
       .error .invalidInput) := by
  have h := upload_batch_applies_initial_segment []
    [("a.xlsx", [1]), ("b.xls", [2])] [("d.xlsx", [4])] ("c.txt", [3])
    (by intro f hf; fin_cases hf <;> decide) (by decide)
  simpa using h

/-- C10: `get_stats` counts a paused job in `total_jobs` but in none of
`active_jobs`, `completed_jobs` or `failed_jobs` (`active_jobs` counts
only `processing` and `pending`), so the three counters sum to
`total_jobs` exactly when no job is paused and fall strictly short
otherwise. -/
theorem get_stats_excludes_paused (jobs : List Job) :
    (get_stats jobs).active_jobs = processingCount jobs + pendingCount jobs ∧
    (get_stats jobs).active_jobs + (get_stats jobs).completed_jobs +
        (get_stats jobs).failed_jobs + pausedCount jobs = (get_stats jobs).total_jobs ∧
    (pausedCount jobs = 0 →
      (get_stats jobs).active_jobs + (get_stats jobs).completed_jobs +
        (get_stats jobs).failed_jobs = (get_stats jobs).total_jobs) ∧
    (0 < pausedCount jobs →
      (get_stats jobs).active_jobs + (get_stats jobs).completed_jobs +
        (get_stats jobs).failed_jobs < (get_stats jobs).total_jobs) := by
  have key : (get_stats jobs).active_jobs = processingCount jobs + pendingCount jobs ∧
      (get_stats jobs).active_jobs + (get_stats jobs).completed_jobs +
        (get_stats jobs).failed_jobs + pausedCount jobs = (get_stats jobs).total_jobs := by
    induction jobs with
    | nil => simp [get_stats, processingCount, pendingCount, pausedCount]
    | cons j jobs ih =>
      obtain ⟨ih1, ih2⟩ := ih
      cases hs : j.status <;>
        simp_all [get_stats, processingCount, pendingCount, pausedCount, hs,
          List.filter_cons] <;> omega
  refine ⟨key.1, key.2, fun h0 => ?_, fun hpos => ?_⟩
  · omega
  · omega

/-- Witness for C10 at a concrete job list containing one paused job:
`active + completed + failed` falls strictly below `total`. -/
theorem get_stats_excludes_paused_witness :
    0 < pausedCount [pausedJob] ∧
    (get_stats [pausedJob]).active_jobs + (get_stats [pausedJob]).completed_jobs +
      (get_stats [pausedJob]).failed_jobs < (get_stats [pausedJob]).total_jobs :=
  ⟨by decide, (get_stats_excludes_paused [pausedJob]).2.2.2 (by decide)⟩

theorem uploadFilesTrace_ordered (names : List String) (done : List Mut) :
    eventsAfterMutations done (uploadFilesTrace names) = true := by
  induction names generalizing done with
  | nil => rfl
  | cons n names ih =>
    by_cases h : validExt n = true
    · simp [uploadFilesTrace, h, eventsAfterMutations, evMut, ih]
    · simp only [Bool.not_eq_true] at h
      simp [uploadFilesTrace, h, eventsAfterMutations]

/-- C8: for every mutating operation — job created, control changed,
status changed (worker trace modelled from the spec), job deleted, file
uploaded, file or output deleted — the state-change event is emitted
only after the mutation has been applied: every event in an operation's
action trace is preceded by its corresponding mutation. -/
theorem handler_events_follow_mutations (names : List String)
    (p1 p2 p3 ch : Bool) (fp valid : Bool) (n1 n2 : String) (id1 id2 id3 id4 : Nat) :
    eventsAfterMutations [] (uploadFilesTrace names) = true ∧
    eventsAfterMutations [] (deleteUploadedFileTrace p1 n1) = true ∧
    eventsAfterMutations [] (deleteOutputFileTrace p2 n2) = true ∧
    eventsAfterMutations [] (createJobTrace fp id1) = true ∧
    eventsAfterMutations [] (controlJobTrace valid id2) = true ∧
    eventsAfterMutations [] (workerStatusTrace ch id4) = true ∧
    eventsAfterMutations [] (deleteJobTrace p3 id3) = true := by
  refine ⟨uploadFilesTrace_ordered names [], ?_, ?_, ?_, ?_, ?_, ?_⟩
  · cases p1 <;> simp [deleteUploadedFileTrace, eventsAfterMutations, evMut]
  · cases p2 <;> simp [deleteOutputFileTrace, eventsAfterMutations, evMut]
  · cases fp <;> simp [createJobTrace, eventsAfterMutations, evMut]
  · cases valid <;> simp [controlJobTrace, eventsAfterMutations, evMut]
  · cases ch <;> simp [workerStatusTrace, eventsAfterMutations, evMut]
  · cases p3 <;> simp [deleteJobTrace, eventsAfterMutations, evMut]

/-- C4: the output written before a pause at checkpoint `(si, ro)`
followed by the output of the resumed execution is byte-identical to the
output of the same job run uninterrupted: no rows are re-emitted and none
are skipped. -/
theorem worker_resume_byte_identical (extract : String → List String)
    (sheets : SheetData) (sel : List Nat) (si ro : Nat) (hsi : si < sel.length) :
    outputBeforePause extract sheets sel si ro ++
        resumeOutput extract sheets sel si ro =
      runJob extract sheets sel := by
  have hgd : sel.getD si 0 = sel[si] := List.getD_eq_getElem sel 0 hsi
  have hsplit : extractRows extract ((sheetAt sheets sel[si]).take ro) ++
      extractRows extract ((sheetAt sheets sel[si]).drop ro) =
      extractRows extract (sheetAt sheets sel[si]) := by
    unfold extractRows
    rw [← List.flatMap_append, List.take_append_drop]
  unfold outputBeforePause resumeOutput
  rw [hgd]
  conv_rhs => rw [show runJob extract sheets sel =
    runJob extract sheets (sel.take si) ++
      (extractRows extract (sheetAt sheets sel[si]) ++
        runJob extract sheets (sel.drop (si + 1))) from by
      unfold runJob
      conv_lhs => rw [← List.take_append_drop si sel]
      rw [List.drop_eq_getElem_cons hsi, List.flatMap_append, List.flatMap_cons]]
  rw [← hsplit]
  simp [List.append_assoc]

/-- Witness for C4: pausing after the first row of the first selected
sheet and resuming reproduces the uninterrupted output. -/
theorem worker_resume_byte_identical_witness :
    outputBeforePause (fun r => [r]) [["a", "b"], ["c"]] [0, 1] 0 1 ++
        resumeOutput (fun r => [r]) [["a", "b"], ["c"]] [0, 1] 0 1 =
      runJob (fun r => [r]) [["a", "b"], ["c"]] [0, 1] :=
  worker_resume_byte_identical (fun r => [r]) [["a", "b"], ["c"]] [0, 1] 0 1 (by decide)

/-- C3: a successful `create_job` returns an id whose record, read back
immediately with `get_job`, is in status `pending`. -/
theorem create_job_starts_pending (s : SysState) (hWF : WF s) (filename : String)
    (sel : List Nat) (s' : SysState) (id : Nat)
    (h : create_job s filename sel = .ok (s', id)) :
    ∃ j, findJob s' id = some j ∧ j.status = .pending := by
  unfold create_job at h
  cases hL : lookupFile s.files filename with
  | none => rw [hL] at h; exact absurd h (by simp)
  | some sheets =>
    rw [hL] at h
    by_cases he : sel.isEmpty <;> by_cases ha : sel.all (fun i => i < sheets.length) <;>
      simp [he, ha] at h
    obtain ⟨hs', hid⟩ := h
    refine ⟨{ id := s.nextId, sourceFilename := filename, selectedSheets := sel,
              status := .pending, control := .run,
              progress := ⟨0, 0, 0⟩, error := none }, ?_, rfl⟩
    subst hid
    rw [← hs']
    unfold findJob
    rw [List.find?_append]
    have hnone : s.jobs.find? (fun j => j.id = s.nextId) = none := by
      rw [List.find?_eq_none]
      intro j hj hpj
      have := hWF j hj
      simp only [decide_eq_true_eq] at hpj
      omega
    simp [hnone, List.find?]

/-- Witness for C3: creating a job over the demo file yields id 0 whose
record is pending. -/
theorem create_job_starts_pending_witness :
    ∃ j, findJob { files := [("f.xlsx", [["r1", "r2"], ["r3"]])],
                   jobs := [{ id := 0, sourceFilename := "f.xlsx",
                              selectedSheets := [0, 1], status := .pending,
                              control := .run, progress := ⟨0, 0, 0⟩,
                              error := none }],
                   nextId := 1 } 0 = some j ∧ j.status = .pending :=
  create_job_starts_pending demoState (by intro j hj; simp [demoState] at hj)
    "f.xlsx" [0, 1] _ 0 rfl

/-- C2: `create_job` with a sheet index at or beyond the sheet count of
the named file fails with `InvalidInput` and creates no Job Record; with
a filename absent from the File Store it fails with `NotFound`, also
without creating a record. -/
theorem create_job_validates_inputs (s : SysState) (filename : String) (sel : List Nat) :
    (∀ sheets, lookupFile s.files filename = some sheets →
      (∃ i ∈ sel, sheets.length ≤ i) →
      create_job s filename sel = .error .invalidInput ∧
        applyOp s (.create filename sel) = s) ∧
    (lookupFile s.files filename = none →
      create_job s filename sel = .error .notFound ∧
        applyOp s (.create filename sel) = s) := by
  constructor
  · rintro sheets hL ⟨i, hi, hlen⟩
    have hne : sel.isEmpty = false := by
      cases sel with
      | nil => simp at hi
      | cons a l => rfl
    have hall : sel.all (fun i => i < sheets.length) = false := by
      rw [Bool.eq_false_iff]
      intro hcontra
      rw [List.all_eq_true] at hcontra
      have := hcontra i hi
      simp only [decide_eq_true_eq] at this
      omega
    have hcj : create_job s filename sel = .error .invalidInput := by
      unfold create_job
      rw [hL]
      simp [hne, hall]
    exact ⟨hcj, by simp only [applyOp, hcj]⟩
  · intro hn
    have hcj : create_job s filename sel = .error .notFound := by
      unfold create_job
      rw [hn]
    exact ⟨hcj, by simp only [applyOp, hcj]⟩

/-- Witness for C2: over the demo file (2 sheets), sheet index 2 is
rejected with `InvalidInput` and no record appears; an unknown filename
is rejected with `NotFound`. -/
theorem create_job_validates_inputs_witness :
    (create_job demoState "f.xlsx" [0, 2] = .error .invalidInput ∧
      applyOp demoState (.create "f.xlsx" [0, 2]) = demoState) ∧
    (create_job demoState "g.xlsx" [0] = .error .notFound ∧
      applyOp demoState (.create "g.xlsx" [0]) = demoState) :=
  ⟨(create_job_validates_inputs demoState "f.xlsx" [0, 2]).1 [["r1", "r2"], ["r3"]]
      (by decide) ⟨2, by decide, by decide⟩,
   (create_job_validates_inputs demoState "g.xlsx" [0]).2 (by decide)⟩

/-- C1: `set_control` with signal `run` on a job already in a terminal
state fails with `InvalidInput` and leaves the state (hence the job
record) unchanged; on an unknown id it fails with `NotFound` for every
signal. -/
theorem set_control_rejects_run_on_terminal (s : SysState) (id : Nat) :
    (∀ j, findJob s id = some j → j.status.isTerminal = true →
      set_control s id .run = .error .invalidInput ∧
        applyOp s (.control id .run) = s) ∧
    (findJob s id = none → ∀ sig, set_control s id sig = .error .notFound) := by
  constructor
  · intro j hj ht
    have hcj : set_control s id .run = .error .invalidInput := by
      unfold set_control
      rw [hj]
      simp [ht]
    exact ⟨hcj, by simp only [applyOp, hcj]⟩
  · intro hn sig
    unfold set_control
    rw [hn]

/-! ## Record lookup under update, filter and append -/

theorem find?_map_ite (l : List Job) (id : Nat) (f : Job → Job)
    (hf : ∀ j, (f j).id = j.id) (id' : Nat) :
    (l.map (fun j => if j.id = id then f j else j)).find? (fun j => j.id = id') =
      if id = id' then (l.find? (fun j => j.id = id)).map f
      else l.find? (fun j => j.id = id') := by
  induction l with
  | nil => simp
  | cons j l ih =>
    simp only [List.map_cons]
    by_cases hj : j.id = id
    · by_cases hii : id = id'
      · subst hii
        rw [if_pos rfl] at ih ⊢
        rw [List.find?_cons_of_pos _ (by simp [hf, hj]),
            List.find?_cons_of_pos _ (by simp [hj])]
        simp [hj]
      · rw [if_neg hii] at ih ⊢
        rw [List.find?_cons_of_neg _ (by simp [hf, hj, hii]),
            List.find?_cons_of_neg _ (by simp [hj, hii]), ih]
    · by_cases hji : j.id = id'
      · have hii : ¬id = id' := fun hc => hj (by rw [hji, hc])
        rw [if_neg hii] at ih ⊢
        rw [if_neg hj, List.find?_cons_of_pos _ (by simp [hji]),
            List.find?_cons_of_pos _ (by simp [hji])]
      · by_cases hii : id = id'
        · subst hii
          rw [if_pos rfl] at ih ⊢
          rw [if_neg hj, List.find?_cons_of_neg _ (by simp [hj]),
              List.find?_cons_of_neg _ (by simp [hj]), ih]
        · rw [if_neg hii] at ih ⊢
          rw [if_neg hj, List.find?_cons_of_neg _ (by simp [hji]),
              List.find?_cons_of_neg _ (by simp [hji]), ih]

theorem findJob_updateJob_same (s : SysState) (id : Nat) (f : Job → Job)
    (hf : ∀ j, (f j).id = j.id) :
    findJob (updateJob s id f) id = (findJob s id).map f := by
  unfold findJob updateJob
  rw [find?_map_ite s.jobs id f hf id, if_pos rfl]

theorem findJob_updateJob_other (s : SysState) (id : Nat) (f : Job → Job)
    (hf : ∀ j, (f j).id = j.id) (id' : Nat) (h : id ≠ id') :
    findJob (updateJob s id f) id' = findJob s id' := by
  unfold findJob updateJob
  rw [find?_map_ite s.jobs id f hf id', if_neg h]

theorem WF_updateJob (s : SysState) (id : Nat) (f : Job → Job)
    (hf : ∀ j, (f j).id = j.id) (hWF : WF s) : WF (updateJob s id f) := by
  intro j hj
  simp only [updateJob, List.mem_map] at hj
  obtain ⟨j0, hj0, hj0e⟩ := hj
  have := hWF j0 hj0
  by_cases hc : j0.id = id
  · rw [if_pos hc] at hj0e
    rw [← hj0e, hf]
    exact this
  · rw [if_neg hc] at hj0e
    rw [← hj0e]
    exact this

theorem find?_filter_ne (l : List Job) (id : Nat) :
    (l.filter (fun j => j.id ≠ id)).find? (fun j => j.id = id) = none := by
  rw [List.find?_eq_none]
  intro j hj
  have := (List.mem_filter.mp hj).2
  simp only [ne_eq, decide_not, Bool.not_eq_true', decide_eq_false_iff_not] at this
  simpa using this

theorem find?_filter_other (l : List Job) (id id' : Nat) (h : id ≠ id') :
    (l.filter (fun j => j.id ≠ id')).find? (fun j => j.id = id) =
      l.find? (fun j => j.id = id) := by
  induction l with
  | nil => simp
  | cons j l ih =>
    by_cases hj : j.id = id'
    · have hji : ¬j.id = id := fun hc => h (by rw [← hc, hj])
      rw [List.filter_cons_of_neg (by simp [hj]),
          List.find?_cons_of_neg _ (by simp [hji]), ih]
    · by_cases hji : j.id = id
      · rw [List.filter_cons_of_pos (by simp [hj]),
            List.find?_cons_of_pos _ (by simp [hji]),
            List.find?_cons_of_pos _ (by simp [hji])]
      · rw [List.filter_cons_of_pos (by simp [hj]),
            List.find?_cons_of_neg _ (by simp [hji]),
            List.find?_cons_of_neg _ (by simp [hji]), ih]

theorem findJob_files_irrelevant (s : SysState) (files' : List (String × SheetData))
    (id : Nat) : findJob { s with files := files' } id = findJob s id := rfl

/-! ## Shapes of the successful manager operations -/

theorem create_job_ok_shape (s : SysState) (filename : String) (sel : List Nat)
    (s' : SysState) (nid : Nat) (h : create_job s filename sel = .ok (s', nid)) :
    s' = { s with jobs := s.jobs ++ [newJob s filename sel],
                  nextId := s.nextId + 1 } ∧ nid = s.nextId := by
  unfold create_job at h
  cases hL : lookupFile s.files filename with
  | none => rw [hL] at h; exact absurd h (by simp)
  | some sheets =>
    rw [hL] at h
    by_cases he : sel.isEmpty <;> by_cases ha : sel.all (fun i => i < sheets.length) <;>
      simp [he, ha] at h
    obtain ⟨hs', hid⟩ := h
    exact ⟨hs'.symm, hid.symm⟩

theorem set_control_ok_shape (s : SysState) (cid : Nat) (sig : JobControl)
    (s' : SysState) (h : set_control s cid sig = .ok s') :
    s' = updateJob s cid (fun j => { j with control := sig }) ∧
    ∃ jc, findJob s cid = some jc ∧
      ¬(jc.control = .stop ∧ sig ≠ .stop) := by
  unfold set_control at h
  split at h
  · exact absurd h (by simp)
  next jc hF =>
    split at h
    · exact absurd h (by simp)
    · split at h
      · exact absurd h (by simp)
      next h2 =>
        simp only [Except.ok.injEq] at h
        refine ⟨h.symm, jc, hF, ?_⟩
        intro hcc
        exact h2 (by simp [hcc.1, hcc.2])

theorem worker_step_shape (s : SysState) (wid : Nat) :
    worker_step s wid = s ∨
    ∃ f, (∀ j, (f j).id = j.id ∧ (f j).control = j.control) ∧
      worker_step s wid = updateJob s wid f := by
  unfold worker_step
  split
  · exact .inl rfl
  · split
    · exact .inl rfl
    · split
      · refine .inr ⟨_, ?_, rfl⟩
        exact fun j' => ⟨rfl, rfl⟩
      · split <;>
          first
          | exact .inl rfl
          | (refine .inr ⟨_, ?_, rfl⟩; exact fun j' => ⟨rfl, rfl⟩)
          | (split <;>
              first
              | (refine .inr ⟨_, ?_, rfl⟩; exact fun j' => ⟨rfl, rfl⟩)
              | (split <;> (refine .inr ⟨_, ?_, rfl⟩; exact fun j' => ⟨rfl, rfl⟩)))

theorem worker_step_stop (s : SysState) (wid : Nat) (jw : Job)
    (h : findJob s wid = some jw) (hc : jw.control = .stop) :
    worker_step s wid = s ∨
    worker_step s wid = updateJob s wid (fun j' => failJob j' "stopped by user") := by
  unfold worker_step
  split
  · exact .inl rfl
  next jw' heq =>
    rw [h] at heq
    injection heq with hj
    subst hj
    split
    · exact .inl rfl
    · exact .inr rfl


theorem delete_job_ok_shape (s : SysState) (did : Nat) (s' : SysState)
    (h : delete_job s did = .ok s') :
    s' = { s with jobs := s.jobs.filter (fun j => j.id ≠ did) } ∨
    s' = { stopAndWait s did with
           jobs := (stopAndWait s did).jobs.filter (fun j => j.id ≠ did) } := by
  unfold delete_job at h
  split at h
  · exact absurd h (by simp)
  · split at h
    · simp only [Except.ok.injEq] at h
      exact .inr h.symm
    · simp only [Except.ok.injEq] at h
      exact .inl h.symm

/-- Witness for C1: `run` on a completed job is rejected and the state is
untouched; an unknown id yields `NotFound`. -/
theorem set_control_rejects_run_on_terminal_witness :
    (set_control { files := [], jobs := [doneJob], nextId := 1 } 0 .run =
        .error .invalidInput ∧
      applyOp { files := [], jobs := [doneJob], nextId := 1 } (.control 0 .run) =
        { files := [], jobs := [doneJob], nextId := 1 }) ∧
    set_control { files := [], jobs := [doneJob], nextId := 1 } 7 .pause =
      .error .notFound :=
  ⟨(set_control_rejects_run_on_terminal { files := [], jobs := [doneJob], nextId := 1 } 0).1
      doneJob (by decide) (by decide),
   (set_control_rejects_run_on_terminal { files := [], jobs := [doneJob], nextId := 1 } 7).2
      (by decide) .pause⟩

theorem worker_step_eq_fail (s : SysState) (wid : Nat) (jw : Job)
    (h : findJob s wid = some jw) (hc : jw.control = .stop)
    (ht : jw.status.isTerminal = false) :
    worker_step s wid =
      updateJob s wid (fun j' => failJob j' "stopped by user") := by
  unfold worker_step
  split
  next heq => rw [h] at heq; exact Option.noConfusion heq
  next jw' heq =>
    rw [h] at heq
    injection heq with hj
    subst hj
    split
    next hterm => rw [ht] at hterm; exact Bool.noConfusion hterm
    · rfl

theorem worker_step_nextId (s : SysState) (wid : Nat) :
    (worker_step s wid).nextId = s.nextId := by
  rcases worker_step_shape s wid with h | ⟨f, _, h⟩
  · rw [h]
  · rw [h]; rfl

theorem worker_step_WF (s : SysState) (wid : Nat) (hWF : WF s) :
    WF (worker_step s wid) := by
  rcases worker_step_shape s wid with h | ⟨f, hf, h⟩
  · rw [h]; exact hWF
  · rw [h]; exact WF_updateJob s wid f (fun j => (hf j).1) hWF

theorem worker_step_findJob_other (s : SysState) (wid id : Nat) (h : wid ≠ id) :
    findJob (worker_step s wid) id = findJob s id := by
  rcases worker_step_shape s wid with hh | ⟨f, hf, hh⟩
  · rw [hh]
  · rw [hh]; exact findJob_updateJob_other s wid f (fun j => (hf j).1) id h

/-- C6: deleting a job that is `processing` or `paused` first forces
`control = stop` and performs the bounded wait (the worker observes the
forced stop within one unit-of-work boundary), so the record is in a
terminal state before it is removed; after the deletion `get_job` finds
nothing; an unknown id fails with `NotFound`. -/
theorem delete_job_stops_then_removes (s : SysState) (id : Nat) :
    (findJob s id = none → delete_job s id = .error .notFound) ∧
    (∀ j, findJob s id = some j →
      (j.status = .processing ∨ j.status = .paused) →
      (∃ j', findJob (stopAndWait s id) id = some j' ∧
        j'.status.isTerminal = true) ∧
      (∃ s', delete_job s id = .ok s' ∧ findJob s' id = none)) := by
  constructor
  · intro hn
    unfold delete_job
    rw [hn]
  · intro j hj hsp
    have hFS : findJob (forceStop s id) id =
        some { j with control := .stop } := by
      unfold forceStop
      rw [findJob_updateJob_same s id
            (fun j' => { j' with control := JobControl.stop }) (fun j' => rfl), hj]
      rfl
    have hterm : ({ j with control := JobControl.stop } : Job).status.isTerminal = false := by
      rcases hsp with h | h <;> simp [h, JobStatus.isTerminal]
    have hsw : stopAndWait s id =
        updateJob (forceStop s id) id (fun j' => failJob j' "stopped by user") :=
      worker_step_eq_fail (forceStop s id) id _ hFS rfl hterm
    have hfind : findJob (stopAndWait s id) id =
        some (failJob { j with control := .stop } "stopped by user") := by
      rw [hsw, findJob_updateJob_same (forceStop s id) id
            (fun j' => failJob j' "stopped by user") (fun j' => rfl), hFS]
      rfl
    refine ⟨⟨_, hfind, rfl⟩, ?_⟩
    have hb : (j.status = JobStatus.processing || j.status = JobStatus.paused) = true := by
      rcases hsp with h | h <;> simp [h]
    refine ⟨{ stopAndWait s id with
              jobs := (stopAndWait s id).jobs.filter (fun j' => j'.id ≠ id) }, ?_, ?_⟩
    · unfold delete_job
      split
      next heq => rw [hj] at heq; exact Option.noConfusion heq
      next jd heq =>
        rw [hj] at heq
        injection heq with hjd
        subst hjd
        rw [if_pos hb]
    · unfold findJob
      exact find?_filter_ne _ id

/-- Witness for C6: deleting the concrete processing job drives it to a
terminal state before removal and leaves `get_job` empty. -/
theorem delete_job_stops_then_removes_witness :
    (∃ j', findJob (stopAndWait procState 0) 0 = some j' ∧
      j'.status.isTerminal = true) ∧
    (∃ s', delete_job procState 0 = .ok s' ∧ findJob s' 0 = none) :=
  (delete_job_stops_then_removes procState 0).2 procJob rfl (.inl rfl)

theorem sticky_unchanged (id : Nat) (s s' : SysState)
    (hfind : findJob s' id = findJob s id)
    (hnext : s.nextId ≤ s'.nextId) (hWF' : WF s')
    (hid : id < s.nextId)
    (hstop : ∀ j, findJob s id = some j → j.control = .stop) :
    StickyStop id s' ∧
    ∀ j j', findJob s id = some j → findJob s' id = some j' →
      (j'.status = .processing → j.status = .processing) := by
  refine ⟨⟨hWF', lt_of_lt_of_le hid hnext,
    fun j hj => hstop j (by rw [hfind] at hj; exact hj)⟩, ?_⟩
  intro j j' hj hj' hp
  rw [hfind, hj] at hj'
  injection hj' with he
  rw [← he] at hp
  exact hp

theorem stickyStop_applyOp (id : Nat) (s : SysState) (op : Op)
    (h : StickyStop id s) :
    StickyStop id (applyOp s op) ∧
    ∀ j j', findJob s id = some j → findJob (applyOp s op) id = some j' →
      (j'.status = .processing → j.status = .processing) := by
  obtain ⟨hWF, hid, hstop⟩ := h
  cases op with
  | create fn sel =>
    cases hc : create_job s fn sel with
    | error e =>
      simp only [applyOp, hc]
      exact sticky_unchanged id s s rfl le_rfl hWF hid hstop
    | ok p =>
      obtain ⟨s₁, nid⟩ := p
      obtain ⟨hs₁, hnid⟩ := create_job_ok_shape s fn sel s₁ nid hc
      simp only [applyOp, hc]
      have hfind : findJob s₁ id = findJob s id := by
        rw [hs₁]
        unfold findJob
        simp only
        rw [List.find?_append]
        have hnone : List.find? (fun j => j.id = id) [newJob s fn sel] = none := by
          simp only [List.find?, newJob]
          have : decide (s.nextId = id) = false := decide_eq_false (by omega)
          rw [this]
        rw [hnone, Option.or_none]
      have hWF1 : WF s₁ := by
        rw [hs₁]
        intro j hj
        simp only [List.mem_append, List.mem_singleton] at hj
        rcases hj with hj | hj
        · have := hWF j hj
          simp only
          omega
        · rw [hj]
          simp [newJob]
      refine sticky_unchanged id s s₁ hfind ?_ hWF1 hid hstop
      rw [hs₁]
      simp only
      omega
  | control cid sig =>
    cases hc : set_control s cid sig with
    | error e =>
      simp only [applyOp, hc]
      exact sticky_unchanged id s s rfl le_rfl hWF hid hstop
    | ok s₁ =>
      obtain ⟨hs₁, jc, hjc, hno⟩ := set_control_ok_shape s cid sig s₁ hc
      simp only [applyOp, hc]
      have hWF1 : WF s₁ := by
        rw [hs₁]
        exact WF_updateJob s cid _ (fun j => rfl) hWF
      by_cases hcid : cid = id
      · subst hcid
        have hjcstop : jc.control = .stop := hstop jc hjc
        have hsig : sig = .stop := by
          by_contra hne
          exact hno ⟨hjcstop, hne⟩
        subst hsig
        have hfind : findJob s₁ cid = some { jc with control := .stop } := by
          rw [hs₁, findJob_updateJob_same s cid
                (fun j => { j with control := .stop }) (fun j => rfl), hjc]
          rfl
        refine ⟨⟨hWF1, by rw [hs₁]; exact hid, ?_⟩, ?_⟩
        · intro j hj
          rw [hfind] at hj
          injection hj with he
          rw [← he]
        · intro j j' hj hj' hp
          rw [hjc] at hj
          injection hj with hej
          rw [hfind] at hj'
          injection hj' with hej'
          rw [← hej'] at hp
          rw [← hej]
          exact hp
      · have hfind : findJob s₁ id = findJob s id := by
          rw [hs₁]
          exact findJob_updateJob_other s cid
            (fun j => { j with control := sig }) (fun j => rfl) id hcid
        exact sticky_unchanged id s s₁ hfind (le_of_eq (by rw [hs₁]; rfl)) hWF1 hid hstop
  | worker wid =>
    simp only [applyOp]
    by_cases hwid : wid = id
    · subst hwid
      cases hF : findJob s wid with
      | none =>
        have hws : worker_step s wid = s := by
          unfold worker_step
          rw [hF]
        rw [hws]
        refine ⟨⟨hWF, hid, hstop⟩, ?_⟩
        intro j j' hj
        exact nomatch hj
      | some jw =>
        have hjw : jw.control = .stop := hstop jw hF
        rcases worker_step_stop s wid jw hF hjw with hh | hh
        · rw [hh]
          refine ⟨⟨hWF, hid, hstop⟩, ?_⟩
          intro j j' hj hj' hp
          injection hj with he
          rw [hF] at hj'
          injection hj' with he'
          rw [← he]
          rw [← he'] at hp
          exact hp
        · rw [hh]
          have hfind : findJob
              (updateJob s wid (fun j' => failJob j' "stopped by user")) wid =
                some (failJob jw "stopped by user") := by
            rw [findJob_updateJob_same s wid
                  (fun j' => failJob j' "stopped by user") (fun j' => rfl), hF]
            rfl
          refine ⟨⟨WF_updateJob s wid _ (fun j' => rfl) hWF, hid, ?_⟩, ?_⟩
          · intro j hj
            rw [hfind] at hj
            injection hj with he
            rw [← he]
            exact hjw
          · intro j j' hj hj' hp
            rw [hfind] at hj'
            injection hj' with he'
            rw [← he'] at hp
            simp only [failJob] at hp
            exact absurd hp (by simp)
    · have hfind := worker_step_findJob_other s wid id hwid
      exact sticky_unchanged id s _ hfind
        (le_of_eq (worker_step_nextId s wid).symm) (worker_step_WF s wid hWF)
        hid hstop
  | deleteJob did =>
    cases hd : delete_job s did with
    | error e =>
      simp only [applyOp, hd]
      exact sticky_unchanged id s s rfl le_rfl hWF hid hstop
    | ok s₁ =>
      simp only [applyOp, hd]
      rcases delete_job_ok_shape s did s₁ hd with hs₁ | hs₁
      · by_cases hdid : did = id
        · subst hdid
          have hfind : findJob s₁ did = none := by
            rw [hs₁]
            unfold findJob
            exact find?_filter_ne _ did
          refine ⟨⟨?_, by rw [hs₁]; exact hid, ?_⟩, ?_⟩
          · rw [hs₁]
            intro j hj
            exact hWF j (List.mem_of_mem_filter hj)
          · intro j hj
            rw [hfind] at hj
            exact Option.noConfusion hj
          · intro j j' hj hj' hp
            rw [hfind] at hj'
            exact Option.noConfusion hj'
        · have hfind : findJob s₁ id = findJob s id := by
            rw [hs₁]
            unfold findJob
            exact find?_filter_other _ id did (fun hc => hdid hc.symm)
          refine sticky_unchanged id s s₁ hfind (le_of_eq (by rw [hs₁])) ?_ hid hstop
          rw [hs₁]
          intro j hj
          exact hWF j (List.mem_of_mem_filter hj)
      · have hWFsw : WF (stopAndWait s did) := by
          unfold stopAndWait
          exact worker_step_WF _ did (WF_updateJob s did _ (fun j => rfl) hWF)
        have hnext_sw : (stopAndWait s did).nextId = s.nextId := by
          unfold stopAndWait forceStop
          rw [worker_step_nextId]
          rfl
        by_cases hdid : did = id
        · subst hdid
          have hfind : findJob s₁ did = none := by
            rw [hs₁]
            unfold findJob
            exact find?_filter_ne _ did
          refine ⟨⟨?_, ?_, ?_⟩, ?_⟩
          · rw [hs₁]
            intro j hj
            exact hWFsw j (List.mem_of_mem_filter hj)
          · rw [hs₁]
            simp only
            rw [hnext_sw]
            exact hid
          · intro j hj
            rw [hfind] at hj
            exact Option.noConfusion hj
          · intro j j' hj hj' hp
            rw [hfind] at hj'
            exact Option.noConfusion hj'
        · have hswfind : findJob (stopAndWait s did) id = findJob s id := by
            unfold stopAndWait
            rw [worker_step_findJob_other _ did id hdid]
            unfold forceStop
            exact findJob_updateJob_other s did
              (fun j => { j with control := JobControl.stop }) (fun j => rfl) id hdid
          have hfind : findJob s₁ id = findJob s id := by
            rw [hs₁]
            unfold findJob
            simp only
            rw [find?_filter_other _ id did (fun hc => hdid hc.symm)]
            unfold findJob at hswfind
            exact hswfind
          refine sticky_unchanged id s s₁ hfind
            (le_of_eq (by rw [hs₁]; simp only; rw [hnext_sw])) ?_ hid hstop
          rw [hs₁]
          intro j hj
          exact hWFsw j (List.mem_of_mem_filter hj)
  | fileSave name sheets =>
    exact sticky_unchanged id s (applyOp s (.fileSave name sheets)) rfl le_rfl hWF hid hstop
  | fileDelete name =>
    exact sticky_unchanged id s (applyOp s (.fileDelete name)) rfl le_rfl hWF hid hstop

theorem stickyStop_applyAll (id : Nat) (s : SysState) (ops : List Op)
    (h : StickyStop id s) : StickyStop id (applyAll s ops) := by
  induction ops generalizing s with
  | nil => exact h
  | cons op ops ih => exact ih (applyOp s op) (stickyStop_applyOp id s op h).1

/-- C5: once a job's control field has been set to `stop`, no later
sequence of operations (job creation, control signals, worker steps, job
deletion, file mutations) can bring its status back to `processing`: at
every future point, a single further operation moves the record of that
id into `processing` only if it was already there. -/
theorem stop_control_sticky (s : SysState) (id : Nat) (j : Job)
    (hWF : WF s) (hj : findJob s id = some j) (hstop : j.control = .stop)
    (ops : List Op) (op : Op) (j1 j2 : Job)
    (h1 : findJob (applyAll s ops) id = some j1)
    (h2 : findJob (applyOp (applyAll s ops) op) id = some j2)
    (hnp : j1.status ≠ .processing) :
    j2.status ≠ .processing := by
  have hid : id < s.nextId := by
    have hmem := List.mem_of_find?_eq_some hj
    have hpred := List.find?_some hj
    simp only [decide_eq_true_eq] at hpred
    have := hWF j hmem
    omega
  have hS : StickyStop id s := by
    refine ⟨hWF, hid, fun j' hj' => ?_⟩
    rw [hj] at hj'
    injection hj' with he
    rw [← he]
    exact hstop
  have hS1 := stickyStop_applyAll id s ops hS
  have hstep := (stickyStop_applyOp id (applyAll s ops) op hS1).2 j1 j2 h1 h2
  intro hp2
  exact hnp (hstep hp2)

/-- Witness for C5: the concrete pending job with `control = stop` is
driven to `failed` (not `processing`) by the next worker step. -/
theorem stop_control_sticky_witness :
    (failJob stoppedJob "stopped by user").status ≠ JobStatus.processing :=
  stop_control_sticky stoppedState 0 stoppedJob
    (by intro j hj; simp [stoppedState] at hj; rw [hj]; decide)
    rfl rfl [] (.worker 0) stoppedJob (failJob stoppedJob "stopped by user")
    rfl rfl (by decide)

end EmailScrape
